import Mathlib

/-!
A shallow embedding of the bazinga nose plugin (src/bazinga/__init__.py),
an incremental change-detection engine for test runs: content hashing,
dependency-graph construction with cross-run graph reuse, cycle-safe
transitive change propagation, and a persisted cache.

Conventions of the embedding:
* `Path` and `Hash` are strings, as in the source (file paths, md5 hexdigests).
* The outside world is an `Env`: `fs p = some h` means a readable file exists
  at `p` whose content currently hashes to `h` (`none` means `isfile p` is
  false and opening `p` raises `IOError`); `resolver p` models snakefood's
  `find_dependencies` (`none` means it raises `TypeError`, `some files` is
  the returned dependency list).
* The plugin's mutable attributes become a `State` record of association
  lists, threaded explicitly; Python dict lookup that can raise `KeyError`,
  file reads that can raise `IOError`, the uncaught `UnboundLocalError` in
  `inspectDependencies`, and `pickle.load` failures are modelled with
  `Except Err`.
* The unbounded recursion of `updateGraph`/`dependenciesChanged` is given
  explicit fuel; a `none` result means the fuel bound was reached, so
  `some r` at any fuel demonstrates termination with result `r`.
-/

namespace Bazinga

abbrev Path := String

abbrev Hash := String

/-- The external collaborators: the filesystem (content hashing plus the
`isfile` test) and snakefood's dependency resolver. -/
structure Env where
  fs : Path → Option Hash
  resolver : Path → Option (List Path)

/-- Python exceptions that can escape the plugin's methods: `IOError` from
`open` in `file_hash`, `KeyError` from `self._graph[path]`, the
`UnboundLocalError` when `inspectDependencies` falls out of its `except`
block with `files` unbound, and an exception from `pickle.load` on a
corrupt cache file. -/
inductive Err where
  | ioErr (p : Path)
  | keyErr (p : Path)
  | nameErr
  | unpickleErr
deriving Repr, DecidableEq

/-- The `Bazinga` plugin's mutable attributes (lines 25-31 of the source):
`_graph`, `_hashes`, `_known_graph`, `_known_hashes`, `_file_status`,
`_ignored_files`, `_failed_test_modules`. Dicts become association lists
(first binding wins on lookup), sets become lists consulted by membership. -/
structure State where
  graph : List (Path × List Path)
  hashes : List (Path × Hash)
  knownGraph : List (Path × List Path)
  knownHashes : List (Path × Hash)
  fileStatus : List (Path × Bool)
  ignoredFiles : List Path
  failedTestModules : List Path
deriving Repr, DecidableEq

/-- The plugin's initial state: every attribute empty (lines 25-31). -/
def initState : State :=
  ⟨[], [], [], [], [], [], []⟩

/-- `file_hash` (lines 17-19): md5 of the file's bytes; raises `IOError`
when the file cannot be opened. -/
def file_hash (env : Env) (p : Path) : Except Err Hash :=
  match env.fs p with
  | some h => Except.ok h
  | none => Except.error (Err.ioErr p)

/-- The logical content of the persisted cache file: the `{'hashes': ...,
'graph': ...}` pair written by `finalize` (line 130). -/
structure CacheData where
  hashes : List (Path × Hash)
  graph : List (Path × List Path)
deriving Repr, DecidableEq

/-- What `configure` finds on disk at `self.hash_file`: no file at all, a
file whose contents `pickle.load` cannot decode, or a valid serialized
cache. -/
inductive CacheFile where
  | absent
  | corrupt
  | valid (d : CacheData)
deriving Repr, DecidableEq

/-- `configure` (lines 33-41): if the cache file exists, unpickle it and
install `_known_hashes`/`_known_graph`. The load is not guarded: a corrupt
file makes `load` raise, and the exception propagates out of `configure`.
An absent file leaves the prior maps as they were (empty at startup). -/
def configure (c : CacheFile) (st : State) : Except Err State :=
  match c with
  | CacheFile.absent => Except.ok st
  | CacheFile.corrupt => Except.error Err.unpickleErr
  | CacheFile.valid d =>
      Except.ok { st with knownHashes := d.hashes, knownGraph := d.graph }

/-- `afterTest` (lines 43-47): `test.passed` is `none` when the test never
ran and `some false` when it failed or errored; only the latter records the
test's source file in `_failed_test_modules` (a Python set, hence the
membership guard). -/
def afterTest (st : State) (passed : Option Bool) (filename : Path) : State :=
  if passed = some false then
    if filename ∈ st.failedTestModules then st
    else { st with failedTestModules := filename :: st.failedTestModules }
  else st

/-- The filtering loop of `inspectDependencies` (lines 62-70), threading
`_ignored_files` through the iteration: a non-existent candidate not yet
ignored is added to the ignored set and dropped; an already-ignored
candidate is dropped; anything else is kept as a valid dependency.
Returns (valid files, updated ignored set). -/
def filterDeps (env : Env) : List Path → List Path → List Path × List Path
  | ignored, [] => ([], ignored)
  | ignored, f :: rest =>
    if env.fs f = none ∧ f ∉ ignored then
      filterDeps env (f :: ignored) rest
    else if f ∈ ignored then
      filterDeps env ignored rest
    else
      let r := filterDeps env ignored rest
      (f :: r.1, r.2)

/-- `inspectDependencies` (lines 49-72): ask snakefood for `path`'s
dependencies. On success, filter the result through `_ignored_files`. On
`TypeError`, if `path` is not yet ignored, ignore it and return `[]`; if it
is already ignored, control falls out of the `except` block and the
`for f in files` loop raises `UnboundLocalError` (`files` was never
assigned). -/
def inspectDependencies (env : Env) (st : State) (p : Path) :
    Except Err (List Path × State) :=
  match env.resolver p with
  | some files =>
      let r := filterDeps env st.ignoredFiles files
      Except.ok (r.1, { st with ignoredFiles := r.2 })
  | none =>
      if p ∉ st.ignoredFiles then
        Except.ok ([], { st with ignoredFiles := p :: st.ignoredFiles })
      else
        Except.error Err.nameErr

/-- The body of `fileChanged` (lines 85-94) once the file's hash `hsh` is
in hand: changed iff `path` has no entry in `_known_hashes` or the hash
differs from the recorded one. -/
def hashMissingOrDiffers (st : State) (p : Path) (hsh : Hash) : Bool :=
  match st.knownHashes.lookup p with
  | none => true
  | some known => hsh != known

/-- `fileChanged` (lines 85-94): fetch the file's hash from `_hashes`,
computing and caching it on a miss (`file_hash` may raise `IOError`), then
compare against `_known_hashes`. -/
def fileChanged (env : Env) (st : State) (p : Path) : Except Err (Bool × State) :=
  match st.hashes.lookup p with
  | some hsh => Except.ok (hashMissingOrDiffers st p hsh, st)
  | none =>
      match file_hash env p with
      | Except.error e => Except.error e
      | Except.ok hsh =>
          Except.ok (hashMissingOrDiffers st p hsh,
            { st with hashes := (p, hsh) :: st.hashes })

/-- The `for f in files: self.updateGraph(f)` loop of `updateGraph`
(lines 82-83), threading the state left to right; `u` is the recursive
`updateGraph` call (at the next fuel level), passed in so that the loop
is structurally recursive on the list. -/
def updateGraphChildren (u : Path → State → Option (Except Err State)) :
    List Path → State → Option (Except Err State)
  | [], st => some (Except.ok st)
  | f :: fs, st =>
    match u f st with
    | none => none
    | some (Except.error e) => some (Except.error e)
    | some (Except.ok st1) => updateGraphChildren u fs st1

/-- `updateGraph` (lines 74-83): if `path` has no entry in `_graph` yet,
determine its edge list — reusing `_known_graph[path]` when the file's own
hash is unchanged and a prior entry exists, otherwise calling
`inspectDependencies` — record it, and recurse on every edge target.
Fuel bounds the recursion depth; `none` means fuel ran out. -/
def updateGraph (env : Env) : Nat → Path → State → Option (Except Err State)
  | 0, _, _ => none
  | fuel + 1, p, st =>
    if (st.graph.lookup p).isSome then
      some (Except.ok st)
    else
      match fileChanged env st p with
      | Except.error e => some (Except.error e)
      | Except.ok (chg, st1) =>
          match (if chg then none else st1.knownGraph.lookup p) with
          | some files =>
              updateGraphChildren (fun f s => updateGraph env fuel f s) files
                { st1 with graph := (p, files) :: st1.graph }
          | none =>
              match inspectDependencies env st1 p with
              | Except.error e => some (Except.error e)
              | Except.ok (files, st2) =>
                  updateGraphChildren (fun f s => updateGraph env fuel f s) files
                    { st2 with graph := (p, files) :: st2.graph }

/-- The `any(self.dependenciesChanged(f, new_parents) for f in childs if
f not in new_parents)` generator of lines 107-110: left-to-right,
short-circuiting on the first `true`, skipping ancestors; `q` is the
recursive `dependenciesChanged` call with the extended ancestor chain. -/
def anyChildChanged (q : Path → State → Option (Except Err (Bool × State))) :
    List Path → List Path → State → Option (Except Err (Bool × State))
  | [], _, st => some (Except.ok (false, st))
  | f :: fs, newParents, st =>
    if f ∈ newParents then
      anyChildChanged q fs newParents st
    else
      match q f st with
      | none => none
      | some (Except.error e) => some (Except.error e)
      | some (Except.ok (true, st1)) => some (Except.ok (true, st1))
      | some (Except.ok (false, st1)) => anyChildChanged q fs newParents st1

/-- `dependenciesChanged` (lines 96-116): memoized, cycle-guarded
transitive change detection. On a `_file_status` hit return it; else if
the file's own hash changed, the verdict is `true`; else the verdict is
whether any direct dependency not on the current ancestor chain reports
changed (`self._graph[path]` raises `KeyError` when absent). The verdict
is memoized before returning. Fuel bounds the recursion depth. -/
def dependenciesChanged (env : Env) :
    Nat → Path → List Path → State → Option (Except Err (Bool × State))
  | 0, _, _, _ => none
  | fuel + 1, p, parents, st =>
    match st.fileStatus.lookup p with
    | some b => some (Except.ok (b, st))
    | none =>
      match fileChanged env st p with
      | Except.error e => some (Except.error e)
      | Except.ok (true, st1) =>
          some (Except.ok (true, { st1 with fileStatus := (p, true) :: st1.fileStatus }))
      | Except.ok (false, st1) =>
          match st1.graph.lookup p with
          | none => some (Except.error (Err.keyErr p))
          | some childs =>
              match anyChildChanged
                  (fun f s => dependenciesChanged env fuel f (parents ++ [p]) s)
                  childs (parents ++ [p]) st1 with
              | none => none
              | some (Except.error e) => some (Except.error e)
              | some (Except.ok (chg, st2)) =>
                  some (Except.ok (chg, { st2 with fileStatus := (p, chg) :: st2.fileStatus }))

/-- `dict.setdefault(k, v)`: keep the existing binding for `k` if there is
one, otherwise append `(k, v)`. -/
def setdefault (l : List (Path × α)) (k : Path) (v : α) : List (Path × α) :=
  if (l.lookup k).isSome then l else l ++ [(k, v)]

/-- The `for k, v in prior.items(): cur.setdefault(k, v)` loops of
`finalize` (lines 119-123). -/
def mergeDefaults (cur : List (Path × α)) : List (Path × α) → List (Path × α)
  | [] => cur
  | kv :: rest => mergeDefaults (setdefault cur kv.1 kv.2) rest

/-- `dict.pop(k, None)`: drop the binding for `k` if present. -/
def removeKey (l : List (Path × α)) (k : Path) : List (Path × α) :=
  l.filter (fun kv => kv.1 != k)

/-- The `for m in self._failed_test_modules: self._hashes.pop(m, None)`
loop of `finalize` (lines 125-127). -/
def removeAll (l : List (Path × α)) : List Path → List (Path × α)
  | [] => l
  | m :: rest => removeAll (removeKey l m) rest

/-- `finalize` (lines 118-130): merge the prior hash and graph maps into
this run's maps with `setdefault` semantics, purge every failed module's
hash entry, and persist the result. Returns the `CacheData` that is
pickled to disk. -/
def finalize (st : State) : CacheData :=
  let hs := mergeDefaults st.hashes st.knownHashes
  let gr := mergeDefaults st.graph st.knownGraph
  ⟨removeAll hs st.failedTestModules, gr⟩

/-- `wantModule` (lines 132-141): `inspect.getsourcefile` is an external
lookup, modelled by the `source : Option Path` argument. No source file
means return `None` (no opinion). Otherwise run `updateGraph` then
`dependenciesChanged`; an unchanged verdict returns `False` (nose: exclude
the unit, i.e. skip it), a changed verdict falls off the end and returns
`None`. -/
def wantModule (env : Env) (fuel : Nat) (source : Option Path) (st : State) :
    Option (Except Err (Option Bool × State)) :=
  match source with
  | none => some (Except.ok (none, st))
  | some src =>
    match updateGraph env fuel src st with
    | none => none
    | some (Except.error e) => some (Except.error e)
    | some (Except.ok st1) =>
      match dependenciesChanged env fuel src [] st1 with
      | none => none
      | some (Except.error e) => some (Except.error e)
      | some (Except.ok (chg, st2)) =>
          if chg then some (Except.ok (none, st2))
          else some (Except.ok (some false, st2))

/-- `wantClass` (lines 143-152): textually the same logic as `wantModule`,
applied to a class's source file. -/
def wantClass (env : Env) (fuel : Nat) (source : Option Path) (st : State) :
    Option (Except Err (Option Bool × State)) :=
  match source with
  | none => some (Except.ok (none, st))
  | some src =>
    match updateGraph env fuel src st with
    | none => none
    | some (Except.error e) => some (Except.error e)
    | some (Except.ok st1) =>
      match dependenciesChanged env fuel src [] st1 with
      | none => none
      | some (Except.error e) => some (Except.error e)
      | some (Except.ok (chg, st2)) =>
          if chg then some (Except.ok (none, st2))
          else some (Except.ok (some false, st2))

/-- The spec's `query(path)`: `updateGraph(path)` followed by
`dependenciesChanged(path, [])`, as performed inside `wantModule` and
`wantClass` (lines 136-137 and 147-148), returning the changed verdict
and the resulting state. -/
def runQuery (env : Env) (fuel : Nat) (p : Path) (st : State) :
    Option (Except Err (Bool × State)) :=
  match updateGraph env fuel p st with
  | none => none
  | some (Except.error e) => some (Except.error e)
  | some (Except.ok st1) => dependenciesChanged env fuel p [] st1

/-- Project a query result to its changed verdict. -/
def verdictOf (r : Option (Except Err (Bool × State))) : Option (Except Err Bool) :=
  r.map (fun x => x.map Prod.fst)

/-- Nose's reading of a `want*` return value: `False` (`some false`) means
the unit is excluded, i.e. the caller may skip it; `None` defers, so the
unit runs. -/
def maySkip (r : Option Bool) : Bool :=
  r == some false

/-- Project a `wantModule`/`wantClass` result to its skip decision. -/
def skipOf (r : Option (Except Err (Option Bool × State))) : Option (Except Err Bool) :=
  r.map (fun x => x.map (fun pr => maySkip pr.1))

/-- Keep the first option when present, fall back to the second:
the lookup-level meaning of a `setdefault` merge. -/
def orKeep (a b : Option α) : Option α :=
  match a with
  | some x => some x
  | none => b

/-! ### Concrete fixtures for the claims -/

/-- C1 world: chain A → B → C recorded in the prior run; only C's content
changed between runs (its hash is now `hC2`, the cache remembers `hC`).
The resolver is only consulted for C (the changed file). -/
def env1 : Env :=
  ⟨fun p => if p = "A" then some "hA" else if p = "B" then some "hB"
    else if p = "C" then some "hC2" else none,
   fun p => if p = "C" then some [] else none⟩

/-- C1 prior-run cache: all three files recorded unchanged, edges
A → B → C. -/
def st1 : State :=
  { initState with
    knownHashes := [("A", "hA"), ("B", "hB"), ("C", "hC")],
    knownGraph := [("A", ["B"]), ("B", ["C"]), ("C", [])] }

/-- C2 world: neither A nor B changed; the resolver always fails (it is
never needed, both edge lists are reused from the prior graph). -/
def env2 : Env :=
  ⟨fun p => if p = "A" then some "hA" else if p = "B" then some "hB" else none,
   fun _ => none⟩

/-- C2 prior-run cache: the two-node cycle A → B → A, both unchanged. -/
def st2 : State :=
  { initState with
    knownHashes := [("A", "hA"), ("B", "hB")],
    knownGraph := [("A", ["B"]), ("B", ["A"])] }

/-- C4 world, parametrized by an arbitrary resolver: file A exists with
hash `hA`, matching the prior cache. The query's result is proved
identical for every resolver, so the resolver is never consulted. -/
def env4 (r : Path → Option (List Path)) : Env :=
  ⟨fun p => if p = "A" then some "hA" else none, r⟩

/-- C4 prior-run cache: A recorded with an empty dependency list and an
unchanged hash. -/
def st4 : State :=
  { initState with knownHashes := [("A", "hA")], knownGraph := [("A", [])] }

/-- C4 expected final state: A's hash cached, the prior empty edge list
reused verbatim, verdict memoized as unchanged, nothing ignored. -/
def st4f : State :=
  { st4 with
    graph := [("A", [])],
    hashes := [("A", "hA")],
    fileStatus := [("A", false)] }

/-- C5 counterexample world: the resolver structurally fails on every
path. -/
def env5 : Env :=
  ⟨fun _ => none, fun _ => none⟩

/-- C5 counterexample state: P is already a member of `_ignored_files`. -/
def st5 : State :=
  { initState with ignoredFiles := ["P"] }

/-- C6 counterexample world: Q and F both exist; resolving Q yields the
edge [F]; resolving F raises a structural error. -/
def env6 : Env :=
  ⟨fun p => if p = "Q" then some "hQ" else if p = "F" then some "hF" else none,
   fun p => if p = "Q" then some ["F"] else none⟩

/-- C6 counterexample final state: F was ignored after the edge list
`[F]` had already been stored for Q. -/
def st6f : State :=
  { initState with
    graph := [("F", []), ("Q", ["F"])],
    hashes := [("F", "hF"), ("Q", "hQ")],
    ignoredFiles := ["F"] }

/-- C6 witness world: Q exists and resolves to the single existing
dependency D. -/
def env6w : Env :=
  ⟨fun p => if p = "Q" then some "hQ" else if p = "D" then some "hD" else none,
   fun p => if p = "Q" then some ["D"] else none⟩

/-- The invariant reachable runs maintain, relating `_ignored_files` and
`_hashes` to the world: every ignored path either already has an edge
list recorded in `_graph` (the structural-failure route records one
immediately after ignoring) or does not exist on disk (the
bogus-dependency route only ignores files failing `isfile`); and every
cached hash was obtained from the filesystem, so a cached path is
readable. -/
def goodState (env : Env) (st : State) : Prop :=
  (∀ q ∈ st.ignoredFiles, (st.graph.lookup q).isSome = true ∨ env.fs q = none) ∧
  (∀ q h, st.hashes.lookup q = some h → env.fs q = some h)

/-- C6 witness filesystem: only Q exists. -/
def fsW : Path → Option Hash :=
  fun p => if p = "Q" then some "hQ" else none

/-- C6 witness world 1: its resolver answers `[X]` on the ignored path G
and structurally fails elsewhere. -/
def envW1 : Env :=
  ⟨fsW, fun p => if p = "G" then some ["X"] else none⟩

/-- C6 witness world 2: same filesystem, but its resolver also fails on
G — it differs from `envW1` only at the ignored path. -/
def envW2 : Env :=
  ⟨fsW, fun _ => none⟩

/-- C6 witness state: G is ignored and has a recorded (empty) edge list,
as the structural-failure route leaves it. -/
def stW : State :=
  { initState with ignoredFiles := ["G"], graph := [("G", [])] }

/-- C7 witness world: a single readable file A with hash `h`. -/
def env7 : Env :=
  ⟨fun p => if p = "A" then some "h" else none, fun _ => none⟩

/-- C8 witness world: file A exists unchanged; the resolver is never
reached. -/
def env8 : Env :=
  ⟨fun p => if p = "A" then some "hA" else none, fun _ => none⟩

/-- C8 witness prior cache: A recorded unchanged with no dependencies. -/
def st8 : State :=
  { initState with knownHashes := [("A", "hA")], knownGraph := [("A", [])] }

/-- C8 witness: state after `updateGraph` on A. -/
def st8a : State :=
  { st8 with graph := [("A", [])], hashes := [("A", "hA")] }

/-- C8 witness: state after `dependenciesChanged` on A. -/
def st8b : State :=
  { st8a with fileStatus := [("A", false)] }

/-- C9 world: the prior run recorded A → B, but B no longer exists on
disk; A itself is unchanged. -/
def env9 : Env :=
  ⟨fun p => if p = "A" then some "hA" else none, fun _ => none⟩

/-- C9 prior-run cache: A unchanged, with the stale edge list [B]. -/
def st9 : State :=
  { initState with knownHashes := [("A", "hA")], knownGraph := [("A", ["B"])] }

/-! ### Association-list lemmas for the `finalize` merge -/

theorem orKeep_none (a : Option α) : orKeep a none = a := by
  cases a <;> rfl

theorem lookup_cons (k k1 : Path) (v1 : α) (l : List (Path × α)) :
    ((k1, v1) :: l).lookup k = if k = k1 then some v1 else l.lookup k := by
  by_cases h : k = k1
  · subst h
    simp [List.lookup]
  · have hb : (k == k1) = false := by
      exact beq_false_of_ne h
    simp [List.lookup, hb, h]

theorem lookup_append (l1 l2 : List (Path × α)) (k : Path) :
    (l1 ++ l2).lookup k = orKeep (l1.lookup k) (l2.lookup k) := by
  induction l1 with
  | nil => simp [List.lookup, orKeep]
  | cons kv rest ih =>
    obtain ⟨k1, v1⟩ := kv
    by_cases h : k = k1
    · simp [List.cons_append, lookup_cons, h, orKeep]
    · simp [List.cons_append, lookup_cons, h, ih]

theorem lookup_setdefault (l : List (Path × α)) (k1 : Path) (v1 : α) (k : Path) :
    (setdefault l k1 v1).lookup k =
      orKeep (l.lookup k) (if k = k1 then some v1 else none) := by
  unfold setdefault
  by_cases hk1 : (l.lookup k1).isSome
  · rw [if_pos hk1]
    by_cases h : k = k1
    · subst h
      obtain ⟨v, hv⟩ := Option.isSome_iff_exists.mp hk1
      simp [hv, orKeep]
    · simp [h, orKeep_none]
  · rw [if_neg hk1]
    rw [lookup_append, lookup_cons]
    simp [List.lookup]

theorem lookup_mergeDefaults (prior : List (Path × α)) :
    ∀ (cur : List (Path × α)) (k : Path),
      (mergeDefaults cur prior).lookup k = orKeep (cur.lookup k) (prior.lookup k) := by
  induction prior with
  | nil =>
    intro cur k
    simp [mergeDefaults, List.lookup, orKeep_none]
  | cons kv rest ih =>
    intro cur k
    obtain ⟨k1, v1⟩ := kv
    rw [mergeDefaults, ih, lookup_setdefault, lookup_cons]
    by_cases h : k = k1
    · cases hc : cur.lookup k <;> simp [h, orKeep]
    · cases hc : cur.lookup k <;> simp [h, orKeep]

theorem lookup_removeKey (l : List (Path × α)) (m k : Path) :
    (removeKey l m).lookup k = if k = m then none else l.lookup k := by
  induction l with
  | nil => simp [removeKey, List.lookup]
  | cons kv rest ih =>
    obtain ⟨k1, v1⟩ := kv
    have hstep : removeKey ((k1, v1) :: rest) m =
        if k1 = m then removeKey rest m else (k1, v1) :: removeKey rest m := by
      by_cases h1 : k1 = m <;> simp [removeKey, List.filter_cons, bne_iff_ne, h1]
    rw [hstep]
    by_cases h1 : k1 = m
    · rw [if_pos h1, ih, lookup_cons]
      by_cases h : k = m
      · simp [h]
      · have hk1 : ¬ k = k1 := fun hc => h (hc.trans h1)
        simp [h, hk1]
    · rw [if_neg h1, lookup_cons, ih, lookup_cons]
      by_cases h : k = k1
      · have hm : ¬ k = m := fun hc => h1 (by rw [← h]; exact hc)
        simp [h, hm, h1]
      · simp [h]

theorem lookup_removeAll (ms : List Path) :
    ∀ (l : List (Path × α)) (k : Path),
      (removeAll l ms).lookup k = if k ∈ ms then none else l.lookup k := by
  induction ms with
  | nil =>
    intro l k
    simp [removeAll]
  | cons m rest ih =>
    intro l k
    rw [removeAll, ih, lookup_removeKey]
    by_cases hr : k ∈ rest
    · simp [hr]
    · by_cases hm : k = m
      · simp [hm, hr]
      · simp [hm, hr]

/-! ### Lemmas about the dependency filter -/

theorem filterDeps_ignored_mem (env : Env) :
    ∀ (files ignored : List Path) (g : Path),
      g ∈ (filterDeps env ignored files).2 → g ∈ ignored ∨ env.fs g = none := by
  intro files
  induction files with
  | nil =>
    intro ignored g h
    exact Or.inl h
  | cons f rest ih =>
    intro ignored g h
    by_cases h1 : env.fs f = none ∧ f ∉ ignored
    · rw [filterDeps, if_pos h1] at h
      rcases ih (f :: ignored) g h with hin | hfs
      · rcases List.mem_cons.mp hin with heq | hmem
        · exact Or.inr (heq ▸ h1.1)
        · exact Or.inl hmem
      · exact Or.inr hfs
    · by_cases h2 : f ∈ ignored
      · rw [filterDeps, if_neg h1, if_pos h2] at h
        exact ih ignored g h
      · rw [filterDeps, if_neg h1, if_neg h2] at h
        exact ih ignored g h

theorem filterDeps_valid_mem (env : Env) :
    ∀ (files ignored : List Path) (f : Path),
      f ∈ (filterDeps env ignored files).1 →
        (env.fs f).isSome = true ∧ f ∉ ignored := by
  intro files
  induction files with
  | nil =>
    intro ignored f h
    exact absurd h (List.not_mem_nil f)
  | cons f0 rest ih =>
    intro ignored f h
    by_cases h1 : env.fs f0 = none ∧ f0 ∉ ignored
    · rw [filterDeps, if_pos h1] at h
      have := ih (f0 :: ignored) f h
      exact ⟨this.1, fun hc => this.2 (List.mem_cons_of_mem _ hc)⟩
    · by_cases h2 : f0 ∈ ignored
      · rw [filterDeps, if_neg h1, if_pos h2] at h
        exact ih ignored f h
      · rw [filterDeps, if_neg h1, if_neg h2] at h
        dsimp only at h
        rcases List.mem_cons.mp h with heq | hmem
        · subst heq
          refine ⟨Option.isSome_iff_ne_none.mpr (fun hn => h1 ⟨hn, h2⟩), h2⟩
        · exact ih ignored f hmem

theorem filterDeps_ignored_mono (env : Env) :
    ∀ (files ignored : List Path) (q : Path),
      q ∈ ignored → q ∈ (filterDeps env ignored files).2 := by
  intro files
  induction files with
  | nil =>
    intro ignored q hq
    exact hq
  | cons f rest ih =>
    intro ignored q hq
    by_cases h1 : env.fs f = none ∧ f ∉ ignored
    · rw [filterDeps, if_pos h1]
      exact ih (f :: ignored) q (List.mem_cons_of_mem _ hq)
    · by_cases h2 : f ∈ ignored
      · rw [filterDeps, if_neg h1, if_pos h2]
        exact ih ignored q hq
      · rw [filterDeps, if_neg h1, if_neg h2]
        exact ih ignored q hq

/-! ### The state never consults the resolver on an ignored path:
congruence and invariant-preservation lemmas. -/

theorem lookup_cons_isSome (g : List (Path × α)) (p : Path) (v : α) (q : Path)
    (h : (g.lookup q).isSome = true) : (((p, v) :: g).lookup q).isSome = true := by
  rw [lookup_cons]
  by_cases hq : q = p <;> simp [hq, h]

theorem fileChanged_cached (env : Env) (st : State) (p : Path) (hsh : Hash)
    (hl : st.hashes.lookup p = some hsh) :
    fileChanged env st p = Except.ok (hashMissingOrDiffers st p hsh, st) := by
  unfold fileChanged
  rw [hl]

theorem fileChanged_fresh (env : Env) (st : State) (p : Path) (hsh : Hash)
    (hl : st.hashes.lookup p = none) (hf : env.fs p = some hsh) :
    fileChanged env st p =
      Except.ok (hashMissingOrDiffers st p hsh,
        { st with hashes := (p, hsh) :: st.hashes }) := by
  unfold fileChanged file_hash
  rw [hl, hf]

theorem fileChanged_unreadable (env : Env) (st : State) (p : Path)
    (hl : st.hashes.lookup p = none) (hf : env.fs p = none) :
    fileChanged env st p = Except.error (Err.ioErr p) := by
  unfold fileChanged file_hash
  rw [hl, hf]

theorem fileChanged_fs_congr (e1 e2 : Env) (st : State) (p : Path)
    (hfs : e1.fs = e2.fs) : fileChanged e1 st p = fileChanged e2 st p := by
  unfold fileChanged file_hash
  rw [hfs]

theorem fileChanged_ok_props (env : Env) (st : State) (p : Path) (chg : Bool)
    (st1 : State) (h : fileChanged env st p = Except.ok (chg, st1)) :
    st1.graph = st.graph ∧ st1.ignoredFiles = st.ignoredFiles ∧
    st1.knownGraph = st.knownGraph ∧
    (goodState env st → goodState env st1) := by
  cases hl : st.hashes.lookup p with
  | some hsh =>
    rw [fileChanged_cached env st p hsh hl] at h
    simp only [Except.ok.injEq, Prod.mk.injEq] at h
    obtain ⟨hchg, hst⟩ := h
    subst hst
    exact ⟨rfl, rfl, rfl, fun hg => hg⟩
  | none =>
    cases hf : env.fs p with
    | none =>
      rw [fileChanged_unreadable env st p hl hf] at h
      exact Except.noConfusion h
    | some hsh =>
      rw [fileChanged_fresh env st p hsh hl hf] at h
      simp only [Except.ok.injEq, Prod.mk.injEq] at h
      obtain ⟨hchg, hst⟩ := h
      subst hst
      refine ⟨rfl, rfl, rfl, fun hg => ⟨fun q hq => hg.1 q hq, fun q hv hq => ?_⟩⟩
      dsimp only at hq
      rw [lookup_cons] at hq
      by_cases hqp : q = p
      · rw [if_pos hqp] at hq
        obtain rfl : hsh = hv := Option.some.inj hq
        rw [hqp, hf]
      · rw [if_neg hqp] at hq
        exact hg.2 q hv hq

theorem filterDeps_fs_congr (e1 e2 : Env) (hfs : e1.fs = e2.fs) :
    ∀ (files ignored : List Path),
      filterDeps e1 ignored files = filterDeps e2 ignored files := by
  intro files
  induction files with
  | nil =>
    intro ignored
    rfl
  | cons f rest ih =>
    intro ignored
    simp only [filterDeps, hfs, ih]

theorem inspectDependencies_congr (e1 e2 : Env) (st : State) (p : Path)
    (hfs : e1.fs = e2.fs) (hres : e1.resolver p = e2.resolver p) :
    inspectDependencies e1 st p = inspectDependencies e2 st p := by
  have hfd : filterDeps e1 = filterDeps e2 :=
    funext fun ig => funext fun fls => filterDeps_fs_congr e1 e2 hfs fls ig
  unfold inspectDependencies
  rw [hres, hfd]

theorem inspectDependencies_ok_props (env : Env) (st : State) (p : Path)
    (files : List Path) (st2 : State)
    (h : inspectDependencies env st p = Except.ok (files, st2)) :
    st2.graph = st.graph ∧ st2.hashes = st.hashes ∧
    (∀ q, q ∈ st.ignoredFiles → q ∈ st2.ignoredFiles) ∧
    (∀ q, q ∈ st2.ignoredFiles → q ∈ st.ignoredFiles ∨ env.fs q = none ∨ q = p) := by
  unfold inspectDependencies at h
  cases hr : env.resolver p with
  | some fls =>
    rw [hr] at h
    dsimp only at h
    simp only [Except.ok.injEq, Prod.mk.injEq] at h
    obtain ⟨hfl, hst⟩ := h
    subst hst
    refine ⟨rfl, rfl, ?_, ?_⟩
    · intro q hq
      exact filterDeps_ignored_mono env fls st.ignoredFiles q hq
    · intro q hq
      rcases filterDeps_ignored_mem env fls st.ignoredFiles q hq with h1 | h2
      · exact Or.inl h1
      · exact Or.inr (Or.inl h2)
  | none =>
    rw [hr] at h
    by_cases hig : p ∉ st.ignoredFiles
    · rw [if_pos hig] at h
      simp only [Except.ok.injEq, Prod.mk.injEq] at h
      obtain ⟨hfl, hst⟩ := h
      subst hst
      refine ⟨rfl, rfl, fun q hq => List.mem_cons_of_mem _ hq, fun q hq => ?_⟩
      rcases List.mem_cons.mp hq with heq | hmem
      · exact Or.inr (Or.inr heq)
      · exact Or.inl hmem
    · rw [if_neg hig] at h
      exact Except.noConfusion h

theorem depsChanged_fs_congr (e1 e2 : Env) (hfs : e1.fs = e2.fs) :
    ∀ (fuel : Nat) (p : Path) (parents : List Path) (st : State),
      dependenciesChanged e1 fuel p parents st
        = dependenciesChanged e2 fuel p parents st := by
  intro fuel
  induction fuel with
  | zero =>
    intro p parents st
    rfl
  | succ n ih =>
    intro p parents st
    simp only [dependenciesChanged]
    rw [fileChanged_fs_congr e1 e2 st p hfs]
    have hfun : (fun f s => dependenciesChanged e1 n f (parents ++ [p]) s)
        = (fun f s => dependenciesChanged e2 n f (parents ++ [p]) s) :=
      funext fun f => funext fun s => ih f (parents ++ [p]) s
    rw [hfun]

theorem updateGraphChildren_agree (e1 e2 : Env) (n : Nat) (hfs : e1.fs = e2.fs)
    (ih : ∀ (p : Path) (st : State),
      (∀ q, q ∉ st.ignoredFiles → e1.resolver q = e2.resolver q) →
      goodState e1 st →
      updateGraph e1 n p st = updateGraph e2 n p st ∧
      (∀ st', updateGraph e1 n p st = some (Except.ok st') →
        goodState e1 st' ∧
        (∀ q, q ∈ st.ignoredFiles → q ∈ st'.ignoredFiles) ∧
        (∀ q, (st.graph.lookup q).isSome = true →
          (st'.graph.lookup q).isSome = true))) :
    ∀ (files : List Path) (st : State),
      (∀ q, q ∉ st.ignoredFiles → e1.resolver q = e2.resolver q) →
      goodState e1 st →
      updateGraphChildren (fun f s => updateGraph e1 n f s) files st
        = updateGraphChildren (fun f s => updateGraph e2 n f s) files st ∧
      (∀ st', updateGraphChildren (fun f s => updateGraph e1 n f s) files st
          = some (Except.ok st') →
        goodState e1 st' ∧
        (∀ q, q ∈ st.ignoredFiles → q ∈ st'.ignoredFiles) ∧
        (∀ q, (st.graph.lookup q).isSome = true →
          (st'.graph.lookup q).isSome = true)) := by
  intro files
  induction files with
  | nil =>
    intro st hagree hgood
    refine ⟨rfl, ?_⟩
    intro st' h
    obtain rfl : st = st' := Except.ok.inj (Option.some.inj h)
    exact ⟨hgood, fun q hq => hq, fun q hq => hq⟩
  | cons f fs ihl =>
    intro st hagree hgood
    obtain ⟨heq, hpost⟩ := ih f st hagree hgood
    simp only [updateGraphChildren]
    rw [← heq]
    cases hu : updateGraph e1 n f st with
    | none =>
      refine ⟨rfl, ?_⟩
      intro st' h
      simp at h
    | some r =>
      cases r with
      | error e =>
        refine ⟨rfl, ?_⟩
        intro st' h
        simp at h
      | ok st1 =>
        dsimp only
        obtain ⟨hgood1, hmono1, hgmono1⟩ := hpost st1 hu
        have hagree1 : ∀ q, q ∉ st1.ignoredFiles → e1.resolver q = e2.resolver q :=
          fun q hq => hagree q (fun hc => hq (hmono1 q hc))
        obtain ⟨heq2, hpost2⟩ := ihl st1 hagree1 hgood1
        refine ⟨heq2, ?_⟩
        intro st' h
        obtain ⟨hg', hm', hgm'⟩ := hpost2 st' h
        exact ⟨hg', fun q hq => hm' q (hmono1 q hq),
          fun q hq => hgm' q (hgmono1 q hq)⟩

theorem updateGraph_agree (e1 e2 : Env) (hfs : e1.fs = e2.fs) :
    ∀ (fuel : Nat) (p : Path) (st : State),
      (∀ q, q ∉ st.ignoredFiles → e1.resolver q = e2.resolver q) →
      goodState e1 st →
      updateGraph e1 fuel p st = updateGraph e2 fuel p st ∧
      (∀ st', updateGraph e1 fuel p st = some (Except.ok st') →
        goodState e1 st' ∧
        (∀ q, q ∈ st.ignoredFiles → q ∈ st'.ignoredFiles) ∧
        (∀ q, (st.graph.lookup q).isSome = true →
          (st'.graph.lookup q).isSome = true)) := by
  intro fuel
  induction fuel with
  | zero =>
    intro p st hagree hgood
    exact ⟨rfl, fun st' h => Option.noConfusion h⟩
  | succ n ih =>
    intro p st hagree hgood
    simp only [updateGraph]
    by_cases hg : (st.graph.lookup p).isSome = true
    · constructor
      · simp only [if_pos hg]
      · intro st' h
        rw [if_pos hg] at h
        obtain rfl : st = st' := Except.ok.inj (Option.some.inj h)
        exact ⟨hgood, fun q hq => hq, fun q hq => hq⟩
    · simp only [if_neg hg]
      rw [← fileChanged_fs_congr e1 e2 st p hfs]
      cases hfc : fileChanged e1 st p with
      | error e =>
        refine ⟨rfl, ?_⟩
        intro st' h
        simp at h
      | ok pr =>
        obtain ⟨chg, st1⟩ := pr
        dsimp only
        obtain ⟨hgr1, hig1, hkg1, hgood1f⟩ := fileChanged_ok_props e1 st p chg st1 hfc
        have hgood1 : goodState e1 st1 := hgood1f hgood
        cases hscrut : (if chg = true then none else st1.knownGraph.lookup p) with
        | some files =>
          dsimp only
          have hagree2 : ∀ q,
              q ∉ ({ st1 with graph := (p, files) :: st1.graph }).ignoredFiles →
                e1.resolver q = e2.resolver q := by
            intro q hq
            apply hagree
            show q ∉ st.ignoredFiles
            rw [← hig1]
            exact hq
          have hgood2 : goodState e1 { st1 with graph := (p, files) :: st1.graph } := by
            constructor
            · intro q hq
              rcases hgood1.1 q hq with hs | hn
              · exact Or.inl (lookup_cons_isSome st1.graph p files q hs)
              · exact Or.inr hn
            · intro q hv hq
              exact hgood1.2 q hv hq
          obtain ⟨heq, hpost⟩ := updateGraphChildren_agree e1 e2 n hfs ih files
            { st1 with graph := (p, files) :: st1.graph } hagree2 hgood2
          refine ⟨heq, ?_⟩
          intro st' h
          obtain ⟨hg', hi', hm'⟩ := hpost st' h
          refine ⟨hg', ?_, ?_⟩
          · intro q hq
            apply hi' q
            show q ∈ st1.ignoredFiles
            rw [hig1]
            exact hq
          · intro q hq
            apply hm' q
            show (((p, files) :: st1.graph).lookup q).isSome = true
            apply lookup_cons_isSome
            rw [hgr1]
            exact hq
        | none =>
          dsimp only
          by_cases hp : p ∈ st.ignoredFiles
          · exfalso
            rcases hgood.1 p hp with hgsome | hfnone
            · exact hg hgsome
            · have hhl : st.hashes.lookup p = none := by
                cases hhl : st.hashes.lookup p with
                | none => rfl
                | some hv =>
                  exact absurd (hgood.2 p hv hhl) (by rw [hfnone]; exact fun hc => Option.noConfusion hc)
              rw [fileChanged_unreadable e1 st p hhl hfnone] at hfc
              exact Except.noConfusion hfc
          · have hres : e1.resolver p = e2.resolver p := hagree p hp
            rw [← inspectDependencies_congr e1 e2 st1 p hfs hres]
            cases hi : inspectDependencies e1 st1 p with
            | error e =>
              refine ⟨rfl, ?_⟩
              intro st' h
              simp at h
            | ok pr2 =>
              obtain ⟨files, st2⟩ := pr2
              dsimp only
              obtain ⟨hgr2, hh2, hmono2, hcover2⟩ :=
                inspectDependencies_ok_props e1 st1 p files st2 hi
              have hmono2s : ∀ q, q ∈ st.ignoredFiles → q ∈ st2.ignoredFiles := by
                intro q hq
                apply hmono2
                rw [hig1]
                exact hq
              have hgood3 : goodState e1 { st2 with graph := (p, files) :: st2.graph } := by
                constructor
                · intro q hq
                  rcases hcover2 q hq with hq1 | hq2 | hq3
                  · rcases hgood1.1 q hq1 with hs | hn
                    · refine Or.inl (lookup_cons_isSome st2.graph p files q ?_)
                      rw [hgr2]
                      exact hs
                    · exact Or.inr hn
                  · exact Or.inr hq2
                  · subst hq3
                    refine Or.inl ?_
                    rw [lookup_cons]
                    simp
                · intro q hv hq
                  apply hgood1.2 q hv
                  rw [← hh2]
                  exact hq
              have hagree3 : ∀ q,
                  q ∉ ({ st2 with graph := (p, files) :: st2.graph }).ignoredFiles →
                    e1.resolver q = e2.resolver q := by
                intro q hq
                apply hagree
                intro hc
                exact hq (hmono2s q hc)
              obtain ⟨heq, hpost⟩ := updateGraphChildren_agree e1 e2 n hfs ih files
                { st2 with graph := (p, files) :: st2.graph } hagree3 hgood3
              refine ⟨heq, ?_⟩
              intro st' h
              obtain ⟨hg', hi', hm'⟩ := hpost st' h
              refine ⟨hg', fun q hq => hi' q (hmono2s q hq), fun q hq => ?_⟩
              apply hm' q
              show (((p, files) :: st2.graph).lookup q).isSome = true
              apply lookup_cons_isSome
              rw [hgr2, hgr1]
              exact hq

/-! ### The claims -/

/-- Claim C1 (confirmed): for the recorded chain A → B → C where only C's
content changed between runs, the query (`updateGraph` then
`dependenciesChanged`) reports "changed" for A, for B and for C, so none
of them is skipped by `wantModule`; and C's verdict is already "changed"
when `dependenciesChanged` is run on the initial state, whose `_graph` is
still empty — the verdict comes from C's own hash difference before any
dependency data exists. -/
theorem c1_transitive_propagation :
    verdictOf (runQuery env1 8 "A" st1) = some (Except.ok true) ∧
    verdictOf (runQuery env1 8 "B" st1) = some (Except.ok true) ∧
    verdictOf (runQuery env1 8 "C" st1) = some (Except.ok true) ∧
    skipOf (wantModule env1 8 (some "A") st1) = some (Except.ok false) ∧
    skipOf (wantModule env1 8 (some "B") st1) = some (Except.ok false) ∧
    st1.graph = [] ∧
    verdictOf (dependenciesChanged env1 8 "C" [] st1) = some (Except.ok true) :=
  ⟨rfl, rfl, rfl, rfl, rfl, rfl, rfl⟩

/-- Claim C2 (confirmed): for the recorded two-node cycle A → B → A with
neither file's content changed, the query for A (`updateGraph` followed by
`dependenciesChanged` with empty ancestors) terminates — it yields a
result at fuel 8 instead of exhausting any amount of fuel — with the
"unchanged" verdict, and `wantModule` answers that A may be skipped. -/
theorem c2_cycle_termination :
    verdictOf (runQuery env2 8 "A" st2) = some (Except.ok false) ∧
    skipOf (wantModule env2 8 (some "A") st2) = some (Except.ok true) :=
  ⟨rfl, rfl⟩

/-- Claim C3 (confirmed): after `finalize`, the persisted hash map binds
`k` to this run's value when one was computed, else to the prior run's
value when one was recorded, except that every key in
`_failed_test_modules` is absent; the persisted graph map binds `k` to
this run's edge list, falling back to the prior run's. -/
theorem c3_merge_correctness (st : State) (k : Path) :
    (finalize st).hashes.lookup k =
      (if k ∈ st.failedTestModules then none
       else orKeep (st.hashes.lookup k) (st.knownHashes.lookup k)) ∧
    (finalize st).graph.lookup k =
      orKeep (st.graph.lookup k) (st.knownGraph.lookup k) := by
  constructor
  · show (removeAll (mergeDefaults st.hashes st.knownHashes)
        st.failedTestModules).lookup k = _
    rw [lookup_removeAll, lookup_mergeDefaults]
  · show (mergeDefaults st.graph st.knownGraph).lookup k = _
    rw [lookup_mergeDefaults]

/-- Claim C4 (confirmed): with a prior cache recording file A with an
empty dependency list and an unchanged hash, the next run's query for A
returns the skip verdict, and the final state is the same for *every*
resolver — so the resolver is never invoked during the query — with A's
prior (empty) edge list reused verbatim and nothing newly ignored. -/
theorem c4_stability (r : Path → Option (List Path)) :
    wantModule (env4 r) 8 (some "A") st4 = some (Except.ok (some false, st4f)) ∧
    skipOf (wantModule (env4 r) 8 (some "A") st4) = some (Except.ok true) ∧
    st4f.graph.lookup "A" = st4.knownGraph.lookup "A" ∧
    st4f.ignoredFiles = [] :=
  ⟨rfl, rfl, rfl, rfl⟩

/-- Claim C5 counterexample: when the resolver raises a structural
failure for a path that is *already* a member of `_ignored_files`,
`inspectDependencies` does not return an empty dependency list — it
raises `UnboundLocalError` (the `except` block neither returns nor binds
`files`, and control falls into `for f in files`). -/
theorem c5_counterexample :
    "P" ∈ st5.ignoredFiles ∧
    inspectDependencies env5 st5 "P" = Except.error Err.nameErr :=
  ⟨List.Mem.head _, rfl⟩

/-- Claim C5 as amended: on a structural resolver failure,
`inspectDependencies` adds the path to `_ignored_files` and returns an
empty dependency list only when the path was not already ignored; a
structurally-failing call on an already-ignored path instead raises an
unbound-variable error. (In particular the path is added at most once.) -/
theorem c5_amended (env : Env) (st : State) (p : Path)
    (h : env.resolver p = none) :
    inspectDependencies env st p =
      (if p ∈ st.ignoredFiles then Except.error Err.nameErr
       else Except.ok ([], { st with ignoredFiles := p :: st.ignoredFiles })) := by
  unfold inspectDependencies
  rw [h]
  by_cases hig : p ∈ st.ignoredFiles
  · rw [if_neg (not_not_intro hig), if_pos hig]
  · rw [if_pos hig, if_neg hig]

/-- Claim C5 witness: a structurally-failing call on a not-yet-ignored
path Q returns the empty list and ignores Q. -/
theorem c5_witness :
    inspectDependencies env5 initState "Q" =
      (if "Q" ∈ initState.ignoredFiles then Except.error Err.nameErr
       else Except.ok ([], { initState with ignoredFiles := ["Q"] })) :=
  c5_amended env5 initState "Q" rfl

/-- Claim C6 counterexample: running `updateGraph` on Q — whose resolver
output is the existing file F, on which the resolver then structurally
fails — ends with F a member of `_ignored_files` while the edge list
stored in `_graph` for Q still names F: an ignored path occurs in a
stored edge list. -/
theorem c6_counterexample :
    updateGraph env6 4 "Q" initState = some (Except.ok st6f) ∧
    "F" ∈ st6f.ignoredFiles ∧
    st6f.graph.lookup "Q" = some ["F"] ∧
    "F" ∈ (["F"] : List Path) :=
  ⟨rfl, List.Mem.head _, rfl, List.Mem.head _⟩

/-- The per-call half of the C6 invariant: an edge list freshly returned
by `inspectDependencies` never names a path that is in `_ignored_files`
when the call returns, and every file in it exists. -/
theorem inspectDeps_valid_ok (env : Env) (st : State) (p : Path) (valid : List Path)
    (st' : State) (h : inspectDependencies env st p = Except.ok (valid, st')) :
    ∀ f ∈ valid, f ∉ st'.ignoredFiles ∧ (env.fs f).isSome = true := by
  intro f hf
  unfold inspectDependencies at h
  cases hr : env.resolver p with
  | some files =>
    rw [hr] at h
    dsimp only at h
    have h' : (filterDeps env st.ignoredFiles files).1 = valid ∧
        { st with ignoredFiles := (filterDeps env st.ignoredFiles files).2 } = st' := by
      have h2 := h
      simp only [Except.ok.injEq, Prod.mk.injEq] at h2
      exact h2
    obtain ⟨hv, hs⟩ := h'
    rw [← hv] at hf
    have hval := filterDeps_valid_mem env files st.ignoredFiles f hf
    constructor
    · intro hc
      rw [← hs] at hc
      dsimp only at hc
      rcases filterDeps_ignored_mem env files st.ignoredFiles f hc with hin | hnone
      · exact hval.2 hin
      · rw [hnone] at hval
        exact absurd hval.1 (by simp)
    · exact hval.1
  | none =>
    rw [hr] at h
    by_cases hig : p ∉ st.ignoredFiles
    · rw [if_pos hig] at h
      have h2 := h
      simp only [Except.ok.injEq, Prod.mk.injEq] at h2
      rw [← h2.1] at hf
      exact absurd hf (List.not_mem_nil f)
    · rw [if_neg hig] at h
      exact Except.noConfusion h

/-- Claim C6 as amended: a path in `_ignored_files` is never subsequently
passed to the resolver — for states satisfying the invariant reachable
runs maintain (`goodState`), the result of `updateGraph` is identical
under any two resolvers that agree outside the ignored set, and
`dependenciesChanged` consults no resolver at all; moreover an edge list
freshly returned by `inspectDependencies` never names a path that is in
`_ignored_files` when the call returns (and every file in it exists).
Only the run-wide edge-list half of the original invariant fails: a path
can enter `_ignored_files` after an edge list naming it was already
stored in `_graph` (and prior-graph edge lists are reused unfiltered), as
the counterexample shows. -/
theorem c6_amended :
    (∀ (e1 e2 : Env) (fuel : Nat) (p : Path) (st : State),
      e1.fs = e2.fs →
      (∀ q, q ∉ st.ignoredFiles → e1.resolver q = e2.resolver q) →
      goodState e1 st →
      updateGraph e1 fuel p st = updateGraph e2 fuel p st) ∧
    (∀ (e1 e2 : Env) (fuel : Nat) (p : Path) (parents : List Path) (st : State),
      e1.fs = e2.fs →
      dependenciesChanged e1 fuel p parents st
        = dependenciesChanged e2 fuel p parents st) ∧
    (∀ (env : Env) (st : State) (p : Path) (valid : List Path) (st' : State),
      inspectDependencies env st p = Except.ok (valid, st') →
      ∀ f ∈ valid, f ∉ st'.ignoredFiles ∧ (env.fs f).isSome = true) :=
  ⟨fun e1 e2 fuel p st hfs hagree hgood =>
      (updateGraph_agree e1 e2 hfs fuel p st hagree hgood).1,
   fun e1 e2 fuel p parents st hfs =>
      depsChanged_fs_congr e1 e2 hfs fuel p parents st,
   inspectDeps_valid_ok⟩

/-- Claim C6 witness: with G ignored (and carrying its recorded edge list),
a query behaves identically whether the resolver would answer `[X]` on G
or fail on it — the resolver is not consulted on G; and the adapter
output for Q, the single existing file D, is not ignored and exists. -/
theorem c6_witness :
    updateGraph envW1 4 "Q" stW = updateGraph envW2 4 "Q" stW ∧
    dependenciesChanged envW1 4 "Q" [] stW = dependenciesChanged envW2 4 "Q" [] stW ∧
    ("D" ∉ initState.ignoredFiles ∧ (env6w.fs "D").isSome = true) :=
  ⟨c6_amended.1 envW1 envW2 4 "Q" stW rfl
      (by
        intro q hq
        have hne : q ≠ "G" := by simpa [stW, initState] using hq
        simp [envW1, envW2, hne])
      (by
        constructor
        · intro q hq
          have heq : q = "G" := by simpa [stW, initState] using hq
          subst heq
          exact Or.inl rfl
        · intro q hv hq
          simp [stW, initState, List.lookup] at hq),
   c6_amended.2.1 envW1 envW2 4 "Q" [] stW rfl,
   c6_amended.2.2 env6w initState "Q" ["D"] initState rfl "D" (List.Mem.head _)⟩

/-- Claim C7 counterexample: a present but undecodable cache file makes
`configure` raise (the `pickle.load` call is not guarded), instead of
proceeding as a cold start. -/
theorem c7_counterexample :
    configure CacheFile.corrupt initState = Except.error Err.unpickleErr :=
  rfl

/-- Claim C7 as amended: an *absent* cache file never raises — `configure`
leaves the prior maps untouched (a cold start), and any readable file with
no prior hash entry is then judged changed by `fileChanged`; a *corrupt*
cache file, however, makes the load raise, as the counterexample shows. -/
theorem c7_amended :
    (∀ st : State, configure CacheFile.absent st = Except.ok st) ∧
    (∀ (env : Env) (st : State) (p : Path) (h : Hash),
      env.fs p = some h → st.hashes.lookup p = none →
      st.knownHashes.lookup p = none →
      fileChanged env st p =
        Except.ok (true, { st with hashes := (p, h) :: st.hashes })) := by
  constructor
  · intro st
    rfl
  · intro env st p h hfs hh hk
    unfold fileChanged
    rw [hh]
    unfold file_hash
    rw [hfs]
    unfold hashMissingOrDiffers
    rw [hk]

/-- Claim C7 witness: on a cold start the single readable file A is
judged changed. -/
theorem c7_witness :
    configure CacheFile.absent initState = Except.ok initState ∧
    fileChanged env7 initState "A" =
      Except.ok (true, { initState with hashes := [("A", "h")] }) :=
  ⟨c7_amended.1 initState, c7_amended.2 env7 initState "A" "h" rfl rfl rfl⟩

/-- Claim C8 (confirmed): a queried unit with no known source location
gets the undetermined answer `None` with the state untouched (the unit
runs); otherwise, whenever the query's two steps succeed with verdict
`b`, `wantModule` returns `False` — nose's "exclude/skip" value — exactly
when `b` is false, i.e. the skip decision is the negation of the changed
verdict (on a changed verdict the plugin returns `None`, so the unit
runs). -/
theorem c8_query_skip :
    (∀ (env : Env) (fuel : Nat) (st : State),
      wantModule env fuel none st = some (Except.ok (none, st))) ∧
    (∀ (env : Env) (fuel : Nat) (p : Path) (st st1 : State) (b : Bool)
      (st2 : State),
      updateGraph env fuel p st = some (Except.ok st1) →
      dependenciesChanged env fuel p [] st1 = some (Except.ok (b, st2)) →
      wantModule env fuel (some p) st =
        some (Except.ok (if b then none else some false, st2)) ∧
      maySkip (if b then none else some false) = !b) := by
  constructor
  · intro env fuel st
    rfl
  · intro env fuel p st st1 b st2 h1 h2
    refine ⟨?_, by cases b <;> rfl⟩
    unfold wantModule
    dsimp only
    rw [h1]
    dsimp only
    rw [h2]
    dsimp only
    cases b <;> rfl

/-- Claim C8 witness: for the unchanged file A the verdict is `false` and
`wantModule` returns `False`, the skip value. -/
theorem c8_witness :
    wantModule env8 8 (some "A") st8 =
      some (Except.ok (if false then none else some false, st8b)) ∧
    maySkip (if false then none else some false) = !false :=
  c8_query_skip.2 env8 8 "A" st8 st8a false st8b rfl rfl

/-- Claim C9 (confirmed): with the prior graph recording A → B, A's
content unchanged, and B no longer present on disk, the query for A
propagates an uncaught `IOError` from hashing B — the reused edge list is
not re-validated, the stale edge is not dropped or ignored, and no
normal changed/unchanged verdict is produced. -/
theorem c9_stale_edge_ioerr :
    wantModule env9 8 (some "A") st9 = some (Except.error (Err.ioErr "B")) :=
  rfl

/-- Claim C10 (confirmed): `wantModule` and `wantClass` are the same
function of the resolved source location and state — for the same source
path and starting state they return the same value and final state — and
when the source location is unknown both return the no-opinion value
`None` and leave the state untouched. -/
theorem c10_want_equiv :
    (∀ (env : Env) (fuel : Nat) (source : Option Path) (st : State),
      wantModule env fuel source st = wantClass env fuel source st) ∧
    (∀ (env : Env) (fuel : Nat) (st : State),
      wantModule env fuel none st = some (Except.ok (none, st)) ∧
      wantClass env fuel none st = some (Except.ok (none, st))) := by
  refine ⟨?_, fun env fuel st => ⟨rfl, rfl⟩⟩
  intro env fuel source st
  cases source with
  | none => rfl
  | some src =>
    unfold wantModule wantClass
    cases hu : updateGraph env fuel src st with
    | none => rfl
    | some r =>
      cases r with
      | error e => rfl
      | ok st1 =>
        cases hd : dependenciesChanged env fuel src [] st1 with
        | none => rfl
        | some r2 =>
          cases r2 with
          | error e => rfl
          | ok pr => rfl

end Bazinga
